import Mathlib

/-
Verification development for the vscode-easy-custom-editor repository.

The embedding below translates the two source modules:
  - BinaryDocument (src/unnamed/part_001): the document model holding the byte
    buffer, the live edit array and the saved-edit array, with save, saveAs,
    revert and backup operations;
  - BinaryEditorProvider (src/unnamed/part_000): the request/response bridge
    between the document and its webview panels.

JavaScript arrays are reference values: the fields edits and savedEdits of a
document hold references into a heap of arrays, so that the statement
this.edits = this.savedEdits in revert produces aliasing (a later in-place
push through one field is visible through the other). The embedding models
this explicitly: the document state carries a heap (a list of arrays) and the
two fields are indices into it. Pushing mutates the array at an index; the
statement savedEdits = Array.from(edits) in save allocates a fresh array.

Asynchronous host calls are modelled by value: the byte-provider delegate
result is passed as an Except parameter, and the cancellation token is the
boolean observed at the single checkpoint the code reads it.
-/

namespace EasyCustomEditor

/-- Byte sequences (Uint8Array contents) as lists of naturals. -/
abbrev Bytes := List Nat

/-- Resource locators: the scheme and path parts of a vscode.Uri that the
source consults (only the scheme is ever branched on, in readFile). -/
structure Uri where
  scheme : String
  path : String
  deriving DecidableEq, Repr

/-- BinaryEdit (src/src/BinaryEditor.ts): a full byte snapshot per edit. -/
structure BinaryEdit where
  snapshot : Bytes
  deriving DecidableEq, Repr

/-- The workspace file system as an association list from locator to bytes. -/
abbrev FS := List (Uri × Bytes)

/-- Lookup in the file-system map (first matching entry). -/
def lookupFS : FS → Uri → Option Bytes
  | [], _ => none
  | (u, d) :: rest, q => if u = q then some d else lookupFS rest q

/-- vscode.workspace.fs.writeFile: create or overwrite the target entry. -/
def writeFS (fs : FS) (q : Uri) (data : Bytes) : FS :=
  match fs with
  | [] => [(q, data)]
  | (u, d) :: rest => if u = q then (q, data) :: rest else (u, d) :: writeFS rest q data

/-- One firing of the onDidChangeContent emitter (part_001 lines 66-73): the
payload carries an optional byte content and the edit list at firing time. -/
structure ChangeEvent where
  content : Option Bytes
  edits : List BinaryEdit
  deriving DecidableEq, Repr

/-- The state of one BinaryDocument (part_001 lines 30-35). The fields
editsRef and savedEditsRef are references into heap, the store of live
JavaScript arrays, so that assignment between the fields creates aliasing
while Array.from creates a fresh array. contentEvents logs every firing of
the onDidChangeContent emitter. -/
structure DocState where
  uri : Uri
  documentData : Bytes
  heap : List (List BinaryEdit)
  editsRef : Nat
  savedEditsRef : Nat
  contentEvents : List ChangeEvent
  deriving DecidableEq, Repr

/-- Read the array stored at a heap reference. -/
def heapGet (h : List (List BinaryEdit)) (r : Nat) : List BinaryEdit :=
  h.getD r []

/-- The value of the live edit array this.edits. -/
def edits (d : DocState) : List BinaryEdit :=
  heapGet d.heap d.editsRef

/-- The value of the saved-edit array this.savedEdits. -/
def savedEdits (d : DocState) : List BinaryEdit :=
  heapGet d.heap d.savedEditsRef

/-- Well-formedness of a document state: both array references point into the
heap. It holds for every state reachable from the constructor. -/
def Wf (d : DocState) : Prop :=
  d.editsRef < d.heap.length ∧ d.savedEditsRef < d.heap.length

instance (d : DocState) : Decidable (Wf d) := by
  unfold Wf
  infer_instance

/-- The private constructor (part_001 lines 41-50): stores the locator and the
initial content; the field initializers at lines 34-35 allocate two distinct
empty arrays for edits and savedEdits. -/
def initialDoc (uri : Uri) (initialContent : Bytes) : DocState :=
  { uri := uri
    documentData := initialContent
    heap := [[], []]
    editsRef := 0
    savedEditsRef := 1
    contentEvents := [] }

/-- BinaryDocument.readFile (part_001 lines 22-27): an untitled locator yields
an empty buffer; otherwise the workspace file system is read, and a missing
entry is the FileNotFound error the host API raises. -/
def readFile (uri : Uri) (fs : FS) : Except String Bytes :=
  if uri.scheme = "untitled" then Except.ok []
  else
    match lookupFS fs uri with
    | some data => Except.ok data
    | none => Except.error "EntryNotFound (FileSystemError)"

/-- BinaryDocument.create (part_001 lines 11-19): read from the backup
locator when one is supplied, else from the resource, and construct the
document. The host parses the backup identifier string into a locator; the
embedding takes the parsed locator directly. -/
def create (uri : Uri) (backupId : Option Uri) (fs : FS) : Except String DocState :=
  let dataFile := match backupId with
    | some b => b
    | none => uri
  match readFile dataFile fs with
  | Except.ok fileData => Except.ok (initialDoc uri fileData)
  | Except.error e => Except.error e

/-- BinaryDocument.makeEdit (part_001 lines 103-121): push the edit onto the
live edit array in place. The onDidChange firing carries the undo and redo
closures, modelled as the operations undoOp and redoOp below; it is not a
content-changed firing, so contentEvents is unchanged. -/
def makeEdit (e : BinaryEdit) (d : DocState) : DocState :=
  { d with heap := d.heap.set d.editsRef (edits d ++ [e]) }

/-- The undo closure of makeEdit (part_001 lines 108-113): pop the live edit
array in place (a no-op pop on an empty array) and fire onDidChangeContent
with the edit list only. -/
def undoOp (d : DocState) : DocState :=
  { d with
      heap := d.heap.set d.editsRef (edits d).dropLast
      contentEvents := d.contentEvents ++ [{ content := none, edits := (edits d).dropLast }] }

/-- The redo closure of makeEdit (part_001 lines 114-119): push the captured
edit back onto the live edit array and fire onDidChangeContent. -/
def redoOp (e : BinaryEdit) (d : DocState) : DocState :=
  { d with
      heap := d.heap.set d.editsRef (edits d ++ [e])
      contentEvents := d.contentEvents ++ [{ content := none, edits := edits d ++ [e] }] }

/-- An edit-log operation: a makeEdit call or an invocation of an undo or
redo closure. -/
inductive EditOp where
  | make (e : BinaryEdit)
  | undo
  | redo (e : BinaryEdit)
  deriving DecidableEq, Repr

/-- Run one edit-log operation. -/
def applyOp : EditOp → DocState → DocState
  | EditOp.make e, d => makeEdit e d
  | EditOp.undo, d => undoOp d
  | EditOp.redo e, d => redoOp e d

/-- Run a sequence of edit-log operations in order. -/
def applyOps : List EditOp → DocState → DocState
  | [], d => d
  | op :: rest, d => applyOps rest (applyOp op d)

/-- BinaryDocument.saveAs (part_001 lines 136-142): obtain the bytes from the
byte-provider delegate (its outcome passed as delegateResult); a delegate
error propagates; if the cancellation token is observed as requested after
the delegate call, return without writing; otherwise write the bytes to the
target. The document state itself is untouched. -/
def saveAs (d : DocState) (fs : FS) (targetResource : Uri)
    (delegateResult : Except String Bytes) (cancelled : Bool) :
    Except String (DocState × FS) :=
  match delegateResult with
  | Except.error e => Except.error e
  | Except.ok fileData =>
    if cancelled then Except.ok (d, fs)
    else Except.ok (d, writeFS fs targetResource fileData)

/-- BinaryDocument.save (part_001 lines 127-130): saveAs to the own locator,
then unconditionally rebind savedEdits to Array.from(edits), a fresh copy of
the live edit array (a fresh heap cell in the embedding). -/
def save (d : DocState) (fs : FS) (delegateResult : Except String Bytes)
    (cancelled : Bool) : Except String (DocState × FS) :=
  match saveAs d fs d.uri delegateResult cancelled with
  | Except.error e => Except.error e
  | Except.ok (d2, fs2) =>
    Except.ok
      ({ d2 with
          heap := d2.heap ++ [heapGet d2.heap d2.editsRef]
          savedEditsRef := d2.heap.length }, fs2)

/-- BinaryDocument.revert (part_001 lines 148-156): reload the bytes from the
own locator, rebind edits to the savedEdits reference (aliasing, no copy),
and fire one onDidChangeContent event carrying the loaded bytes and the
restored edit list. -/
def revert (d : DocState) (fs : FS) : Except String DocState :=
  match readFile d.uri fs with
  | Except.error e => Except.error e
  | Except.ok diskContent =>
    Except.ok
      { d with
          documentData := diskContent
          editsRef := d.savedEditsRef
          contentEvents := d.contentEvents ++
            [{ content := some diskContent, edits := heapGet d.heap d.savedEditsRef }] }

/-- BinaryDocument.backup (part_001 lines 164-178): saveAs to the supplied
destination; on success the returned backup record carries the destination
as its identifier (its deletion capability is best-effort host glue). -/
def backup (d : DocState) (fs : FS) (destination : Uri)
    (delegateResult : Except String Bytes) (cancelled : Bool) :
    Except String (DocState × FS × Uri) :=
  match saveAs d fs destination delegateResult cancelled with
  | Except.error e => Except.error e
  | Except.ok (d2, fs2) => Except.ok (d2, fs2, destination)

/-- The document state save leaves behind when saveAs returned without
error: the saved-edit field is rebound to a freshly allocated copy of the
live edit array (the new heap cell at index d.heap.length). -/
def postSaveDoc (d : DocState) : DocState :=
  { d with
      heap := d.heap ++ [heapGet d.heap d.editsRef]
      savedEditsRef := d.heap.length }

/-- The document state revert produces once the reload of the own locator
returned content: bytes replaced, the live edit field rebound to the
saved-edit reference, and one content-changed event appended. -/
def revertResult (d : DocState) (content : Bytes) : DocState :=
  { d with
      documentData := content
      editsRef := d.savedEditsRef
      contentEvents := d.contentEvents ++
        [{ content := some content, edits := heapGet d.heap d.savedEditsRef }] }

/-- One message posted to a webview panel by the provider: the panel handle,
the message type, the request identifier when one was allocated, and the
payload body. -/
structure SentMessage where
  panel : Nat
  type : String
  requestId : Option Nat
  body : Bytes
  deriving DecidableEq, Repr

/-- The request/response bridge state of one BinaryEditorProvider instance
(part_000 lines 173-174): the next request identifier (field initializer 1)
and the correlation map, whose keys are the pending request identifiers (its
values are the stored promise-resolve callbacks, whose invocations are logged
in resolved as pairs of identifier and payload). sent logs every message
posted to a panel. -/
structure Bridge where
  requestId : Nat
  callbacks : List Nat
  resolved : List (Nat × Bytes)
  sent : List SentMessage
  deriving DecidableEq, Repr

/-- A freshly constructed provider bridge: requestId starts at 1, the
correlation map is empty. -/
def initialBridge : Bridge :=
  { requestId := 1, callbacks := [], resolved := [], sent := [] }

/-- BinaryEditorProvider.postMessageWithResponse (part_000 lines 177-182):
allocate the current requestId (post-increment), store the resolve callback
in the correlation map under it (Map.set: the key is added when absent), and
post the message carrying the identifier. Returns the new bridge state and
the allocated identifier. -/
def postMessageWithResponse (br : Bridge) (panel : Nat) (type : String) (body : Bytes) :
    Bridge × Nat :=
  let requestId := br.requestId
  ({ requestId := br.requestId + 1
     callbacks := if requestId ∈ br.callbacks then br.callbacks else br.callbacks ++ [requestId]
     resolved := br.resolved
     sent := br.sent ++ [{ panel := panel, type := type, requestId := some requestId, body := body }] },
   requestId)

/-- BinaryEditorProvider.postMessage (part_000 lines 185-187): fire-and-forget
send, no identifier allocated. -/
def postMessage (br : Bridge) (panel : Nat) (type : String) (body : Bytes) : Bridge :=
  { br with sent := br.sent ++ [{ panel := panel, type := type, requestId := none, body := body }] }

/-- An incoming webview message as dispatched by onMessage: an update carries
an edit, a response carries a request identifier and a payload, anything else
falls through the switch. -/
inductive IncomingMessage where
  | update (edit : BinaryEdit)
  | response (requestId : Nat) (body : Bytes)
  | other (type : String)
  deriving DecidableEq, Repr

/-- BinaryEditorProvider.onMessage (part_000 lines 190-203): an update message
is forwarded to makeEdit; a response message reads the correlation map at its
requestId and, when a callback is present, invokes it with the body (the map
entry is not deleted); an unknown identifier makes the optional-call a no-op.
Other message types fall through. -/
def onMessage (br : Bridge) (d : DocState) (m : IncomingMessage) : Bridge × DocState :=
  match m with
  | IncomingMessage.update e => (br, makeEdit e d)
  | IncomingMessage.response requestId body =>
    if requestId ∈ br.callbacks then
      ({ br with resolved := br.resolved ++ [(requestId, body)] }, d)
    else (br, d)
  | IncomingMessage.other _ => (br, d)

/-- The getFileData delegate built in openCustomDocument (part_000 lines
59-69): with zero webviews registered under the document locator it throws
immediately; otherwise it posts a getFileData request to the first panel and
awaits the response, whose eventual payload is passed in as webviewReply. -/
def getFileDataDelegate (webviews : List Nat) (br : Bridge) (webviewReply : Bytes) :
    Except String (Bridge × Bytes) :=
  match webviews with
  | [] => Except.error "Could not find webview to save for"
  | panel :: _ =>
    let posted := postMessageWithResponse br panel "getFileData" []
    Except.ok (posted.1, webviewReply)

/-- Run a sequence of postMessageWithResponse calls (panel, type, body per
call), collecting the allocated request identifiers in order. -/
def runPosts : List (Nat × String × Bytes) → Bridge → Bridge × List Nat
  | [], br => (br, [])
  | (panel, ty, body) :: rest, br =>
    let step := postMessageWithResponse br panel ty body
    let next := runPosts rest step.1
    (next.1, step.2 :: next.2)

/-
Sample concrete values used by witnesses and counterexamples.
-/

/-- A sample file locator. -/
def sampleUri : Uri := { scheme := "file", path := "a.bin" }

/-- A sample edit. -/
def sampleEdit1 : BinaryEdit := { snapshot := [1] }

/-- A second sample edit. -/
def sampleEdit2 : BinaryEdit := { snapshot := [1, 2] }

/-- A sample freshly opened document with empty content. -/
def sampleDoc : DocState := initialDoc sampleUri []

/-- A bridge that has issued exactly one request (identifier 1). -/
def c1Bridge : Bridge := (postMessageWithResponse initialBridge 0 "getFileData" []).1

/-- The sample document after one makeEdit. -/
def editedDoc : DocState := makeEdit sampleEdit1 sampleDoc

/-- The state editedDoc reaches after a successful uncancelled save of the
bytes the delegate returned ([1]) into an empty file system. -/
def editedDocSaved : DocState :=
  match save editedDoc [] (Except.ok [1]) false with
  | Except.ok p => p.1
  | Except.error _ => editedDoc

/-- The file system produced by that save. -/
def editedDocSavedFs : FS := [(sampleUri, [1])]

/-- The state editedDocSaved reaches after a revert. -/
def editedDocReverted : DocState :=
  match revert editedDocSaved editedDocSavedFs with
  | Except.ok d => d
  | Except.error _ => editedDocSaved

/-- The document state a cancelled save of editedDoc produces: the write is
skipped, yet the saved-edit snapshot has been rebound to a copy of the
live edit list. -/
def cancelledSaveDoc : DocState :=
  { uri := sampleUri
    documentData := []
    heap := [[sampleEdit1], [], [sampleEdit1]]
    editsRef := 0
    savedEditsRef := 2
    contentEvents := [] }

/-- The document state a successful uncancelled save of sampleDoc produces. -/
def savedSampleDoc : DocState :=
  { uri := sampleUri
    documentData := []
    heap := [[], [], []]
    editsRef := 0
    savedEditsRef := 2
    contentEvents := [] }

/-- The file system that save leaves behind when the delegate returned [9]
and the file system was empty. -/
def savedSampleFs : FS := [(sampleUri, [9])]

/-
Helper lemmas about list indexing, shared by several proofs below.
-/

theorem getD_set_self {α : Type} (l : List α) (i : Nat) (v fb : α) (hi : i < l.length) :
    (l.set i v).getD i fb = v := by
  induction l generalizing i with
  | nil => simp at hi
  | cons a t ih =>
    cases i with
    | zero => rfl
    | succ n =>
      simp only [List.set_cons_succ, List.getD_cons_succ]
      exact ih n (by simpa using hi)

theorem getD_set_ne {α : Type} (l : List α) (i j : Nat) (v fb : α) (hij : i ≠ j) :
    (l.set i v).getD j fb = l.getD j fb := by
  induction l generalizing i j with
  | nil => rfl
  | cons a t ih =>
    cases i with
    | zero =>
      cases j with
      | zero => exact absurd rfl hij
      | succ m => rfl
    | succ n =>
      cases j with
      | zero => rfl
      | succ m =>
        simp only [List.set_cons_succ, List.getD_cons_succ]
        exact ih n m (by omega)

theorem getD_append_left {α : Type} (l₁ l₂ : List α) (i : Nat) (fb : α) (hi : i < l₁.length) :
    (l₁ ++ l₂).getD i fb = l₁.getD i fb := by
  induction l₁ generalizing i with
  | nil => simp at hi
  | cons a t ih =>
    cases i with
    | zero => rfl
    | succ n =>
      simp only [List.cons_append, List.getD_cons_succ]
      exact ih n (by simpa using hi)

theorem getD_append_length {α : Type} (l : List α) (v fb : α) :
    (l ++ [v]).getD l.length fb = v := by
  induction l with
  | nil => rfl
  | cons a t ih =>
    simp only [List.cons_append, List.length_cons, List.getD_cons_succ]
    exact ih

/-
Preservation lemmas for the edit-log operations.
-/

theorem applyOp_editsRef (op : EditOp) (d : DocState) :
    (applyOp op d).editsRef = d.editsRef := by
  cases op <;> rfl

theorem applyOp_savedEditsRef (op : EditOp) (d : DocState) :
    (applyOp op d).savedEditsRef = d.savedEditsRef := by
  cases op <;> rfl

theorem applyOp_heap_length (op : EditOp) (d : DocState) :
    (applyOp op d).heap.length = d.heap.length := by
  cases op <;> simp [applyOp, makeEdit, undoOp, redoOp]

theorem applyOp_savedEdits_of_ne (op : EditOp) (d : DocState)
    (h : d.editsRef ≠ d.savedEditsRef) :
    savedEdits (applyOp op d) = savedEdits d := by
  cases op <;>
    simp only [applyOp, makeEdit, undoOp, redoOp, savedEdits, heapGet] <;>
    exact getD_set_ne d.heap d.editsRef d.savedEditsRef _ [] h

theorem applyOps_savedEdits_of_ne (ops : List EditOp) (d : DocState)
    (h : d.editsRef ≠ d.savedEditsRef) :
    savedEdits (applyOps ops d) = savedEdits d := by
  induction ops generalizing d with
  | nil => rfl
  | cons op rest ih =>
    have hrefs : (applyOp op d).editsRef ≠ (applyOp op d).savedEditsRef := by
      rw [applyOp_editsRef, applyOp_savedEditsRef]
      exact h
    calc savedEdits (applyOps (op :: rest) d)
        = savedEdits (applyOps rest (applyOp op d)) := rfl
      _ = savedEdits (applyOp op d) := ih (applyOp op d) hrefs
      _ = savedEdits d := applyOp_savedEdits_of_ne op d h

theorem edits_makeEdit (e : BinaryEdit) (d : DocState) (hwf : d.editsRef < d.heap.length) :
    edits (makeEdit e d) = edits d ++ [e] := by
  simp only [makeEdit, edits, heapGet]
  exact getD_set_self d.heap d.editsRef _ [] hwf

theorem edits_undoOp (d : DocState) (hwf : d.editsRef < d.heap.length) :
    edits (undoOp d) = (edits d).dropLast := by
  simp only [undoOp, edits, heapGet]
  exact getD_set_self d.heap d.editsRef _ [] hwf

theorem edits_redoOp (e : BinaryEdit) (d : DocState) (hwf : d.editsRef < d.heap.length) :
    edits (redoOp e d) = edits d ++ [e] := by
  simp only [redoOp, edits, heapGet]
  exact getD_set_self d.heap d.editsRef _ [] hwf

theorem applyOps_editsRef (ops : List EditOp) (d : DocState) :
    (applyOps ops d).editsRef = d.editsRef := by
  induction ops generalizing d with
  | nil => rfl
  | cons op rest ih =>
    calc (applyOps (op :: rest) d).editsRef
        = (applyOps rest (applyOp op d)).editsRef := rfl
      _ = (applyOp op d).editsRef := ih (applyOp op d)
      _ = d.editsRef := applyOp_editsRef op d

theorem applyOps_heap_length (ops : List EditOp) (d : DocState) :
    (applyOps ops d).heap.length = d.heap.length := by
  induction ops generalizing d with
  | nil => rfl
  | cons op rest ih =>
    calc (applyOps (op :: rest) d).heap.length
        = (applyOps rest (applyOp op d)).heap.length := rfl
      _ = (applyOp op d).heap.length := ih (applyOp op d)
      _ = d.heap.length := applyOp_heap_length op d

theorem edits_applyMakes (es : List BinaryEdit) (d : DocState)
    (hwf : d.editsRef < d.heap.length) :
    edits (applyOps (es.map EditOp.make) d) = edits d ++ es := by
  induction es generalizing d with
  | nil => simp [applyOps]
  | cons e rest ih =>
    have hwf2 : (makeEdit e d).editsRef < (makeEdit e d).heap.length := by
      simpa [makeEdit] using hwf
    calc edits (applyOps ((e :: rest).map EditOp.make) d)
        = edits (applyOps (rest.map EditOp.make) (makeEdit e d)) := rfl
      _ = edits (makeEdit e d) ++ rest := ih (makeEdit e d) hwf2
      _ = (edits d ++ [e]) ++ rest := by rw [edits_makeEdit e d hwf]
      _ = edits d ++ e :: rest := by simp

theorem edits_applyUndos (M : Nat) (d : DocState)
    (hwf : d.editsRef < d.heap.length) :
    edits (applyOps (List.replicate M EditOp.undo) d)
      = (edits d).take ((edits d).length - M) := by
  induction M generalizing d with
  | zero => simp [applyOps]
  | succ k ih =>
    have hwf2 : (undoOp d).editsRef < (undoOp d).heap.length := by
      simpa [undoOp] using hwf
    have h1 : edits (undoOp d) = (edits d).take ((edits d).length - 1) := by
      rw [edits_undoOp d hwf, List.dropLast_eq_take]
    have step : applyOps (List.replicate (k + 1) EditOp.undo) d
        = applyOps (List.replicate k EditOp.undo) (undoOp d) := rfl
    rw [step, ih (undoOp d) hwf2, h1, List.length_take, List.take_take]
    congr 1
    omega

/-- Claim C5: invoking the redo closure immediately after invoking the undo
closure produced by makeEdit restores the edit list to its pre-undo state,
same length and content, with the edit re-appended as the last element. -/
theorem undo_redo_identity (d : DocState) (E : BinaryEdit) (l : List BinaryEdit)
    (hwf : d.editsRef < d.heap.length) (h : edits d = l ++ [E]) :
    edits (redoOp E (undoOp d)) = edits d
  ∧ (edits (redoOp E (undoOp d))).getLast? = some E := by
  have hwf2 : (undoOp d).editsRef < (undoOp d).heap.length := by
    simpa [undoOp] using hwf
  have h1 : edits (undoOp d) = l := by
    rw [edits_undoOp d hwf, h, List.dropLast_concat]
  have h2 : edits (redoOp E (undoOp d)) = l ++ [E] := by
    rw [edits_redoOp E (undoOp d) hwf2, h1]
  exact ⟨by rw [h2, h], by rw [h2, List.getLast?_concat]⟩

/-- Claim C5 witness: the undo and redo closures of one edit on the sample
document, evaluated concretely. -/
theorem undo_redo_identity_witness :
    edits (redoOp sampleEdit1 (undoOp editedDoc)) = edits editedDoc
  ∧ (edits (redoOp sampleEdit1 (undoOp editedDoc))).getLast? = some sampleEdit1 :=
  undo_redo_identity editedDoc sampleEdit1 [] (by decide) (by decide)

/-- Claim C6: on a fresh document, N makeEdit calls followed by M undo
invocations (M at most N) leave the edit list equal to the first N minus M
edits, of length N minus M: each undo removes exactly the most recently
applied remaining edit, in LIFO order. -/
theorem edits_undo_lifo (uri : Uri) (data : Bytes) (es : List BinaryEdit) (M : Nat)
    (hM : M ≤ es.length) :
    edits (applyOps (List.replicate M EditOp.undo)
        (applyOps (es.map EditOp.make) (initialDoc uri data)))
      = es.take (es.length - M)
  ∧ (edits (applyOps (List.replicate M EditOp.undo)
        (applyOps (es.map EditOp.make) (initialDoc uri data)))).length
      = es.length - M := by
  have hwf0 : (initialDoc uri data).editsRef < (initialDoc uri data).heap.length := by
    simp [initialDoc]
  have hmk := edits_applyMakes es (initialDoc uri data) hwf0
  have hed0 : edits (initialDoc uri data) = [] := rfl
  rw [hed0, List.nil_append] at hmk
  have hwf1 : (applyOps (es.map EditOp.make) (initialDoc uri data)).editsRef
      < (applyOps (es.map EditOp.make) (initialDoc uri data)).heap.length := by
    rw [applyOps_editsRef, applyOps_heap_length]
    exact hwf0
  have hund := edits_applyUndos M (applyOps (es.map EditOp.make) (initialDoc uri data)) hwf1
  rw [hmk] at hund
  refine ⟨hund, ?_⟩
  rw [hund, List.length_take]
  omega

/-- Claim C6 witness: two edits then one undo on a fresh document. -/
theorem edits_undo_lifo_witness :
    edits (applyOps (List.replicate 1 EditOp.undo)
        (applyOps ([sampleEdit1, sampleEdit2].map EditOp.make) (initialDoc sampleUri [])))
      = [sampleEdit1, sampleEdit2].take ([sampleEdit1, sampleEdit2].length - 1)
  ∧ (edits (applyOps (List.replicate 1 EditOp.undo)
        (applyOps ([sampleEdit1, sampleEdit2].map EditOp.make) (initialDoc sampleUri [])))).length
      = [sampleEdit1, sampleEdit2].length - 1 :=
  edits_undo_lifo sampleUri [] [sampleEdit1, sampleEdit2] 1 (by decide)

theorem runPosts_ids (msgs : List (Nat × String × Bytes)) (br : Bridge) :
    (runPosts msgs br).2 = List.range' br.requestId msgs.length := by
  induction msgs generalizing br with
  | nil => rfl
  | cons m rest ih =>
    obtain ⟨panel, ty, body⟩ := m
    show (postMessageWithResponse br panel ty body).2 ::
        (runPosts rest (postMessageWithResponse br panel ty body).1).2
      = List.range' br.requestId (rest.length + 1)
    rw [ih, List.range'_succ]
    rfl

/-- Claim C7: the request identifiers allocated over any sequence of
postMessageWithResponse calls on one bridge instance are strictly increasing,
the first allocated identifier is 1, and no identifier is allocated twice. -/
theorem requestIds_monotone (msgs : List (Nat × String × Bytes)) (h : msgs ≠ []) :
    List.Pairwise (fun a b => a < b) (runPosts msgs initialBridge).2
  ∧ (runPosts msgs initialBridge).2.head? = some 1
  ∧ (runPosts msgs initialBridge).2.Nodup := by
  have hids : (runPosts msgs initialBridge).2 = List.range' 1 msgs.length :=
    runPosts_ids msgs initialBridge
  refine ⟨?_, ?_, ?_⟩
  · rw [hids]
    exact List.pairwise_lt_range' 1 msgs.length
  · rw [hids]
    obtain ⟨m, rest, rfl⟩ := List.exists_cons_of_ne_nil h
    rw [List.length_cons, List.range'_succ]
    rfl
  · rw [hids]
    exact List.nodup_range' 1 msgs.length

/-- Claim C7 witness: a single request allocates identifier 1. -/
theorem requestIds_monotone_witness :
    List.Pairwise (fun a b => a < b) (runPosts [(0, "getFileData", [])] initialBridge).2
  ∧ (runPosts [(0, "getFileData", [])] initialBridge).2.head? = some 1
  ∧ (runPosts [(0, "getFileData", [])] initialBridge).2.Nodup :=
  requestIds_monotone [(0, "getFileData", [])] (by simp)

/-- Claim C8: with zero attached webviews the byte-provider delegate raises
its missing-webview error immediately, without posting any request; save,
saveAs and backup all abort by propagating that error, and no fallback byte
source is consulted. -/
theorem missing_webview_error (br : Bridge) (reply : Bytes) (d : DocState) (fs : FS)
    (target : Uri) (c : Bool) :
    getFileDataDelegate [] br reply = Except.error "Could not find webview to save for"
  ∧ saveAs d fs target (Except.error "Could not find webview to save for") c
      = Except.error "Could not find webview to save for"
  ∧ save d fs (Except.error "Could not find webview to save for") c
      = Except.error "Could not find webview to save for"
  ∧ backup d fs target (Except.error "Could not find webview to save for") c
      = Except.error "Could not find webview to save for" :=
  ⟨rfl, rfl, rfl, rfl⟩

/-- Claim C9: create reads the initial bytes from the backup locator when one
is supplied and otherwise from the resource itself; an untitled locator
yields an empty buffer without error; any other read failure propagates as
the host file-system error; and the document constructed on success has empty
edit and saved-edit lists. -/
theorem create_loads_initial_bytes (uri b : Uri) (fs : FS) (p : String) (data : Bytes) :
    create uri (some b) fs = (readFile b fs).map (initialDoc uri)
  ∧ create uri none fs = (readFile uri fs).map (initialDoc uri)
  ∧ readFile { scheme := "untitled", path := p } fs = Except.ok []
  ∧ edits (initialDoc uri data) = [] ∧ savedEdits (initialDoc uri data) = [] := by
  refine ⟨?_, ?_, rfl, rfl, rfl⟩
  · cases hr : readFile b fs <;> simp [create, hr, Except.map]
  · cases hr : readFile uri fs <;> simp [create, hr, Except.map]

/-- Claim C1 counterexample: after the bridge has issued request 1, a
matching response does NOT remove the correlation entry (the map still holds
identifier 1), and a second response with the same identifier invokes the
callback a second time (two logged invocations). -/
theorem onMessage_keeps_entry_cex :
    1 ∈ c1Bridge.callbacks
  ∧ (onMessage c1Bridge sampleDoc (IncomingMessage.response 1 [7])).1.callbacks = [1]
  ∧ (onMessage (onMessage c1Bridge sampleDoc (IncomingMessage.response 1 [7])).1
      sampleDoc (IncomingMessage.response 1 [7])).1.resolved = [(1, [7]), (1, [7])] := by
  refine ⟨?_, rfl, rfl⟩
  decide

/-- Claim C1 amended: a response whose identifier is pending invokes its
stored callback once with the carried payload but leaves the correlation map
unchanged, so the entry is never removed and a duplicate response invokes the
callback again; a response with an unknown identifier changes nothing and
raises no error. -/
theorem onMessage_response_behavior (br : Bridge) (d : DocState) (requestId : Nat)
    (body : Bytes) :
    (requestId ∈ br.callbacks →
      onMessage br d (IncomingMessage.response requestId body)
        = ({ br with resolved := br.resolved ++ [(requestId, body)] }, d))
  ∧ (requestId ∉ br.callbacks →
      onMessage br d (IncomingMessage.response requestId body) = (br, d)) := by
  constructor
  · intro h
    simp [onMessage, h]
  · intro h
    simp [onMessage, h]

/-- Claim C1 amended witness: a known and an unknown identifier on the
one-request bridge. -/
theorem onMessage_response_behavior_witness :
    onMessage c1Bridge sampleDoc (IncomingMessage.response 1 [9])
      = ({ c1Bridge with resolved := [(1, [9])] }, sampleDoc)
  ∧ onMessage c1Bridge sampleDoc (IncomingMessage.response 2 [9])
      = (c1Bridge, sampleDoc) := by
  have h1 := onMessage_response_behavior c1Bridge sampleDoc 1 [9]
  have h2 := onMessage_response_behavior c1Bridge sampleDoc 2 [9]
  exact ⟨h1.1 (by decide), h2.2 (by decide)⟩

/-- Claim C2 counterexample: a save of editedDoc cancelled after the delegate
returned skips the write (the empty file system is returned unchanged) yet
rebinds the saved-edit snapshot from [] to a copy of the live edit list. -/
theorem save_cancelled_cex :
    save editedDoc [] (Except.ok [9]) true = Except.ok (cancelledSaveDoc, [])
  ∧ savedEdits editedDoc = []
  ∧ savedEdits cancelledSaveDoc = [sampleEdit1] :=
  ⟨rfl, rfl, rfl⟩

/-- Claim C2 amended: when cancellation is observed after the delegate call
returns, the write is skipped (the file system is returned unchanged), but
the saved-edit snapshot IS updated: save rebinds it unconditionally to a
copy of the live edit list. -/
theorem save_cancelled_behavior (d : DocState) (fs : FS) (data : Bytes) (hwf : Wf d) :
    save d fs (Except.ok data) true = Except.ok (postSaveDoc d, fs)
  ∧ savedEdits (postSaveDoc d) = edits d
  ∧ edits (postSaveDoc d) = edits d
  ∧ (postSaveDoc d).documentData = d.documentData := by
  refine ⟨rfl, ?_, ?_, rfl⟩
  · exact getD_append_length d.heap _ []
  · exact getD_append_left d.heap _ d.editsRef [] hwf.1

/-- Claim C2 amended witness: the cancelled save of editedDoc. -/
theorem save_cancelled_behavior_witness :
    save editedDoc [] (Except.ok [9]) true = Except.ok (postSaveDoc editedDoc, [])
  ∧ savedEdits (postSaveDoc editedDoc) = edits editedDoc
  ∧ edits (postSaveDoc editedDoc) = edits editedDoc
  ∧ (postSaveDoc editedDoc).documentData = editedDoc.documentData :=
  save_cancelled_behavior editedDoc [] [9] (by decide)

/-- Claim C3 counterexample: after a successful uncancelled save the snapshot
is [sampleEdit1]; a revert followed by one makeEdit, with no save in
between, changes the snapshot to [sampleEdit1, sampleEdit2]: revert aliases
the live edit array to the saved-edit array and makeEdit then pushes onto
the shared array in place, mutating the saved-edit list without any
assignment. -/
theorem snapshot_mutated_after_revert_cex :
    savedEdits editedDocSaved = [sampleEdit1]
  ∧ savedEdits (makeEdit sampleEdit2 editedDocReverted) = [sampleEdit1, sampleEdit2] :=
  ⟨rfl, rfl⟩

/-- Claim C3 amended: immediately after a successful uncancelled save at the
original location the saved-edit snapshot equals the live edit list, and the
snapshot is unaffected by any sequence of makeEdit, undo and redo operations
performed after that point until the next save or revert; after a revert the
two arrays are aliased, so a makeEdit then mutates the snapshot in place. -/
theorem save_snapshot_behavior (d : DocState) (fs : FS) (data : Bytes) (hwf : Wf d) :
    save d fs (Except.ok data) false = Except.ok (postSaveDoc d, writeFS fs d.uri data)
  ∧ savedEdits (postSaveDoc d) = edits (postSaveDoc d)
  ∧ ∀ ops : List EditOp, savedEdits (applyOps ops (postSaveDoc d)) = savedEdits (postSaveDoc d) := by
  refine ⟨rfl, ?_, ?_⟩
  · show heapGet (d.heap ++ [heapGet d.heap d.editsRef]) d.heap.length
      = heapGet (d.heap ++ [heapGet d.heap d.editsRef]) d.editsRef
    simp only [heapGet]
    rw [getD_append_length d.heap (d.heap.getD d.editsRef []) []]
    rw [getD_append_left d.heap _ d.editsRef [] hwf.1]
  · intro ops
    apply applyOps_savedEdits_of_ne
    show d.editsRef ≠ d.heap.length
    have := hwf.1
    omega

/-- Claim C3 amended witness: the saved sample document, with one concrete
makeEdit performed after the save. -/
theorem save_snapshot_behavior_witness :
    save editedDoc [] (Except.ok [1]) false = Except.ok (postSaveDoc editedDoc, writeFS [] editedDoc.uri [1])
  ∧ savedEdits (postSaveDoc editedDoc) = edits (postSaveDoc editedDoc)
  ∧ savedEdits (applyOps [EditOp.make sampleEdit2] (postSaveDoc editedDoc))
      = savedEdits (postSaveDoc editedDoc) := by
  have h := save_snapshot_behavior editedDoc [] [1] (by decide)
  exact ⟨h.1, h.2.1, h.2.2 [EditOp.make sampleEdit2]⟩

/-- Claim C4: revert reloads the bytes from the original resource locator
(the backup locator is not consulted), restores the edit list to the
last-saved snapshot, and fires exactly one content-changed notification
carrying both the loaded bytes and the restored edit list. -/
theorem revert_restores_snapshot (d : DocState) (fs : FS) (content : Bytes)
    (hread : readFile d.uri fs = Except.ok content) :
    revert d fs = Except.ok (revertResult d content)
  ∧ (revertResult d content).documentData = content
  ∧ edits (revertResult d content) = savedEdits d
  ∧ (revertResult d content).contentEvents
      = d.contentEvents ++ [{ content := some content, edits := savedEdits d }] := by
  refine ⟨?_, rfl, rfl, rfl⟩
  unfold revert revertResult
  rw [hread]

/-- Claim C4 witness: reverting the sample document against a file system
holding bytes [3] at its locator. -/
theorem revert_restores_snapshot_witness :
    revert sampleDoc [(sampleUri, [3])] = Except.ok (revertResult sampleDoc [3])
  ∧ (revertResult sampleDoc [3]).documentData = [3]
  ∧ edits (revertResult sampleDoc [3]) = savedEdits sampleDoc
  ∧ (revertResult sampleDoc [3]).contentEvents
      = sampleDoc.contentEvents ++ [{ content := some [3], edits := savedEdits sampleDoc }] :=
  revert_restores_snapshot sampleDoc [(sampleUri, [3])] [3] rfl

/-- Claim C10: documentData is untouched by makeEdit, the undo and redo
closures, save, saveAs and backup, in both the cancelled and the uncancelled
outcome: a successful uncancelled save or saveAs writes the delegate bytes
to the file system while returning the document with its byte buffer
unchanged. -/
theorem documentData_frame (d : DocState) (fs : FS) (e : BinaryEdit) (target : Uri)
    (data : Bytes) :
    (makeEdit e d).documentData = d.documentData
  ∧ (undoOp d).documentData = d.documentData
  ∧ (redoOp e d).documentData = d.documentData
  ∧ saveAs d fs target (Except.ok data) false = Except.ok (d, writeFS fs target data)
  ∧ saveAs d fs target (Except.ok data) true = Except.ok (d, fs)
  ∧ save d fs (Except.ok data) false = Except.ok (postSaveDoc d, writeFS fs d.uri data)
  ∧ save d fs (Except.ok data) true = Except.ok (postSaveDoc d, fs)
  ∧ (postSaveDoc d).documentData = d.documentData
  ∧ backup d fs target (Except.ok data) false = Except.ok (d, writeFS fs target data, target)
  ∧ backup d fs target (Except.ok data) true = Except.ok (d, fs, target) :=
  ⟨rfl, rfl, rfl, rfl, rfl, rfl, rfl, rfl, rfl, rfl⟩

end EasyCustomEditor
